import Mathlib

/-
Formal model of the Store / StoreManager multiwatcher of the juju
repository, together with two standalone functions that are present in
the sources (BridgeNameForDevice and MatchingBlockDevice).

The multiwatcher implementation itself is not among the source files;
only its Go test file is (inside acceptancetests/assess).  The Store and
StoreManager operations below are therefore modelled from the natural
language specification (sections 3, 4 and 8), and their behaviour is
checked against the expectations recorded in that test file.
-/

namespace Multiwatcher

/-- Entity identity: a (kind, id) pair. -/
structure EntityId where
  kind : String
  id : String
deriving DecidableEq

/-- Entity value: an identity together with an opaque payload.  The Store
treats the value itself opaquely. -/
structure EntityInfo where
  entityId : EntityId
  payload : String
deriving DecidableEq

/-- Modelled from the spec: one Store entry per live-or-tombstoned entity
(spec section 3), holding the value, creation revno, current revno, the
removed flag and the reference count. -/
structure EntityEntry where
  info : EntityInfo
  creationRevno : Int
  revno : Int
  removed : Bool
  refCount : Int
deriving DecidableEq

/-- A delta: an entity value plus a Removed flag. -/
structure Delta where
  removed : Bool
  entity : EntityInfo
deriving DecidableEq

/-- Modelled from the spec: the Store holds latestRevno and the sequence of
entries in ascending revno order (tail = newest).  The id index of the
implementation is implicit: ids are unique in the sequence, so lookups are
by search. -/
structure Store where
  latestRevno : Int
  entries : List EntityEntry
deriving DecidableEq

/-- The empty Store: latestRevno starts at 0. -/
def Store.empty : Store := { latestRevno := 0, entries := [] }

/-- Lookup of the entry for an id (the id index of the implementation). -/
def findEntry (s : Store) (id : EntityId) : Option EntityEntry :=
  s.entries.find? (fun e => decide (e.info.entityId = id))

/-- Physical deletion of the entry for an id from the sequence. -/
def deleteId (entries : List EntityEntry) (id : EntityId) : List EntityEntry :=
  entries.filter (fun e => !(decide (e.info.entityId = id)))

/-- In-place modification of the entry for an id (no reordering). -/
def setEntry (entries : List EntityEntry) (id : EntityId)
    (f : EntityEntry → EntityEntry) : List EntityEntry :=
  entries.map (fun e => if e.info.entityId = id then f e else e)

/-- Modelled from the spec (section 4.1 Update): insert a fresh entry at the
tail with creationRevno = revno = latestRevno+1, or update the existing
entry (clearing removed, keeping creationRevno and refCount), bump its
revno and move it to the tail. -/
def Store.Update (s : Store) (info : EntityInfo) : Store :=
  match findEntry s info.entityId with
  | none =>
      { latestRevno := s.latestRevno + 1,
        entries := s.entries ++
          [{ info := info, creationRevno := s.latestRevno + 1,
             revno := s.latestRevno + 1, removed := false, refCount := 0 }] }
  | some e =>
      { latestRevno := s.latestRevno + 1,
        entries := deleteId s.entries info.entityId ++
          [{ e with info := info, revno := s.latestRevno + 1, removed := false }] }

/-- Modelled from the spec (section 4.1 Remove) and the store tests: no
entry or an already removed entry is a no-op; an entry with refCount 0 is
physically deleted while latestRevno is bumped (test case: mark removed on
entry with zero ref count expects revno 2 and empty contents); otherwise
the entry is marked removed, its revno bumped, and moved to the tail. -/
def Store.Remove (s : Store) (id : EntityId) : Store :=
  match findEntry s id with
  | none => s
  | some e =>
      if e.removed then s
      else if e.refCount = 0 then
        { latestRevno := s.latestRevno + 1, entries := deleteId s.entries id }
      else
        { latestRevno := s.latestRevno + 1,
          entries := deleteId s.entries id ++
            [{ e with revno := s.latestRevno + 1, removed := true }] }

/-- Modelled from the spec (section 4.1 Get): the current info, or none if
absent or removed. -/
def Store.Get (s : Store) (id : EntityId) : Option EntityInfo :=
  match findEntry s id with
  | none => none
  | some e => if e.removed then none else some e.info

/-- Modelled from the spec (section 4.1 incRef): increment the reference
count of the entry, in place, with no revno change. -/
def Store.incRef (s : Store) (id : EntityId) : Store :=
  { s with entries := setEntry s.entries id (fun e => { e with refCount := e.refCount + 1 }) }

/-- Modelled from the spec (section 4.1 decRef): decrement the reference
count; a removed entry whose count reaches zero is physically deleted. -/
def Store.decRef (s : Store) (id : EntityId) : Store :=
  match findEntry s id with
  | none => s
  | some e =>
      if e.removed ∧ e.refCount - 1 = 0 then
        { s with entries := deleteId s.entries id }
      else
        { s with entries := setEntry s.entries id (fun x => { x with refCount := x.refCount - 1 }) }

/-- Projection of an entry to the delta reported for it. -/
def toDelta (e : EntityEntry) : Delta := { removed := e.removed, entity := e.info }

/-- Modelled from the spec (section 4.1 ChangesSince) following the shape of
the reference algorithm: scan from the newest end while revno > sinceRevno,
then walk back towards the newest end (ascending revno), skipping entries
that are removed and were created after sinceRevno. -/
def Store.ChangesSince (s : Store) (since : Int) : List Delta :=
  (((s.entries.reverse.takeWhile (fun e => decide (since < e.revno))).reverse).filter
      (fun e => !(e.removed && decide (since < e.creationRevno)))).map toDelta

/-- One public Store mutation. -/
inductive StoreOp where
  | update (info : EntityInfo)
  | remove (id : EntityId)
  | incRef (id : EntityId)
  | decRef (id : EntityId)

/-- Application of one mutation. -/
def applyOp (s : Store) : StoreOp → Store
  | .update info => s.Update info
  | .remove id => s.Remove id
  | .incRef id => s.incRef id
  | .decRef id => s.decRef id

/-- A Store reached by a sequence of public mutations from the empty
Store. -/
def runOps (ops : List StoreOp) : Store := ops.foldl applyOp Store.empty

/-- The condition, as phrased by the spec, under which an entry is reported
by ChangesSince(since): revno > since, and not (removed with
creationRevno > since). -/
def reportable (since : Int) (e : EntityEntry) : Bool :=
  decide (since < e.revno) && !(e.removed && decide (since < e.creationRevno))

-- Sample entities used in concrete witnesses and counterexamples
-- (machines "0", "1", "2" as in the store tests).

def mid0 : EntityId := { kind := "machine", id := "0" }

def mid1 : EntityId := { kind := "machine", id := "1" }

def mid2 : EntityId := { kind := "machine", id := "2" }

def minfo0 : EntityInfo := { entityId := mid0, payload := "" }

def minfo1 : EntityInfo := { entityId := mid1, payload := "" }

def minfo2 : EntityInfo := { entityId := mid2, payload := "" }

def sampleEntry0 : EntityEntry :=
  { info := minfo0, creationRevno := 1, revno := 1, removed := false, refCount := 0 }

def sampleEntry1 : EntityEntry :=
  { info := minfo0, creationRevno := 1, revno := 1, removed := false, refCount := 1 }

def sampleStoreA : Store := { latestRevno := 1, entries := [sampleEntry0] }

def sampleStoreB : Store := { latestRevno := 1, entries := [sampleEntry1] }

/-- The relation claimed between latestRevno and the entry sequence:
latestRevno equals the revno of the tail entry, or 0 when empty. -/
def tailRevnoOk (s : Store) : Bool :=
  match s.entries.getLast? with
  | none => s.latestRevno == 0
  | some e => s.latestRevno == e.revno

/-- Revision well-formedness of one entry relative to the latest revno:
creationRevno is at least 1 and at most revno, revno at most latest. -/
def EntryWf (latest : Int) (e : EntityEntry) : Prop :=
  1 ≤ e.creationRevno ∧ e.creationRevno ≤ e.revno ∧ e.revno ≤ latest

/-- Well-formedness of a Store: nonnegative latestRevno, well-formed
entries, the sequence strictly ascending by revno, and ids unique. -/
def Store.Wf (s : Store) : Prop :=
  0 ≤ s.latestRevno ∧
  (∀ e ∈ s.entries, EntryWf s.latestRevno e) ∧
  s.entries.Pairwise (fun a b => a.revno < b.revno) ∧
  s.entries.Pairwise (fun a b => a.info.entityId ≠ b.info.entityId)


def seenByWatcher (wrevno : Int) (e : EntityEntry) : Bool :=
  decide (e.creationRevno ≤ wrevno) && !(e.removed && decide (e.revno ≤ wrevno))

/-- Ids of the entries a stopping Watcher still holds a reference on. -/
def leaveIds (s : Store) (wrevno : Int) : List EntityId :=
  (s.entries.filter (seenByWatcher wrevno)).map (fun e => e.info.entityId)

/-- Modelled from the spec (section 4.3, Watcher stop processing): decRef
every entry the Watcher has observed and whose removal it has not yet
consumed; decRef physically deletes a removed entry reaching refCount
zero. -/
def Store.leave (s : Store) (wrevno : Int) : Store :=
  (leaveIds s wrevno).foldl Store.decRef s

/-- What one decRef does to the entry it finds. -/
def decRefStep (e : EntityEntry) : Option EntityEntry :=
  if e.removed ∧ e.refCount - 1 = 0 then none
  else some { e with refCount := e.refCount - 1 }

/-- Per-entry outcome of Watcher stop processing, as the claim states it:
never-seen entries and already-consumed tombstones are untouched; every
other entry has its refCount decremented, a removed entry reaching zero
being deleted. -/
def leaveStep (wrevno : Int) (e : EntityEntry) : Option EntityEntry :=
  if wrevno < e.creationRevno then some e
  else if e.removed ∧ e.revno ≤ wrevno then some e
  else decRefStep e


inductive ReplyVal where
  | data (ok : Bool) (changes : List Delta)
  | failure (msg : String)
deriving DecidableEq

/-- A recorded reply to a request (requests are identified by number). -/
structure Reply where
  rid : Nat
  value : ReplyVal
deriving DecidableEq

/-- Modelled from the spec (section 4.3): the request-routing state of a
StoreManager: its Store, the known Watcher positions, the parked requests
per Watcher (newest first), and the log of replies it has sent. -/
structure MgrState where
  store : Store
  wrevnos : List (Nat × Int)
  waiting : List (Nat × List Nat)
  replies : List Reply
deriving DecidableEq

/-- Association list lookup by key. -/
def alLookup {α : Type} (k : Nat) : List (Nat × α) → Option α
  | [] => none
  | p :: rest => if p.1 = k then some p.2 else alLookup k rest

/-- Association list update of an existing key. -/
def alSet {α : Type} (k : Nat) (v : α) : List (Nat × α) → List (Nat × α)
  | [] => []
  | p :: rest => if p.1 = k then (k, v) :: alSet k v rest else p :: alSet k v rest

/-- Association list removal of a key. -/
def alRemove {α : Type} (k : Nat) : List (Nat × α) → List (Nat × α)
  | [] => []
  | p :: rest => if p.1 = k then alRemove k rest else p :: alRemove k rest

/-- The position of a Watcher (its revno), 0 when not recorded yet. -/
def getRevno (m : MgrState) (w : Nat) : Int := (alLookup w m.wrevnos).getD 0

/-- Record a new position for a Watcher. -/
def setRevno (w : Nat) (r : Int) (l : List (Nat × Int)) : List (Nat × Int) :=
  match alLookup w l with
  | some _ => alSet w r l
  | none => l ++ [(w, r)]

/-- Park a request at the head of the queue of its Watcher (newest
first). -/
def pushReq (w rid : Nat) (l : List (Nat × List Nat)) : List (Nat × List Nat) :=
  match alLookup w l with
  | some q => alSet w (rid :: q) l
  | none => l ++ [(w, [rid])]

/-- Modelled from the spec (section 4.3, respond refcount bookkeeping):
for a delivered removal of an entry the Watcher had seen, decRef; for a
delivered non-removal of an entry the Watcher had not seen, incRef. -/
def seenDelta (wrevno : Int) (s : Store) (d : Delta) : Store :=
  match findEntry s d.entity.entityId with
  | none => s
  | some e =>
      if d.removed then
        if e.creationRevno ≤ wrevno then s.decRef d.entity.entityId else s
      else
        if wrevno < e.creationRevno then s.incRef d.entity.entityId else s

/-- Reference count bookkeeping for a whole delivered batch. -/
def seenChanges (s : Store) (wrevno : Int) (changes : List Delta) : Store :=
  changes.foldl (seenDelta wrevno) s

/-- Modelled from the spec (section 4.3, respond): service one Watcher
that has parked requests: when there are new deltas for it, reply its most
recent parked request with them, advance its position to latestRevno, pop
that request, and update the reference counts. -/
def respondStep (m : MgrState) (p : Nat × List Nat) : MgrState :=
  if m.store.ChangesSince (getRevno m p.1) = [] then m
  else
    match p.2 with
    | [] => m
    | r :: rest =>
        { store := seenChanges m.store (getRevno m p.1)
            (m.store.ChangesSince (getRevno m p.1)),
          wrevnos := setRevno p.1 m.store.latestRevno m.wrevnos,
          waiting := if rest = [] then alRemove p.1 m.waiting else alSet p.1 rest m.waiting,
          replies := m.replies ++
            [{ rid := r, value := .data true (m.store.ChangesSince (getRevno m p.1)) }] }

/-- Modelled from the spec (section 4.3, respond): walk the Watchers with
parked requests and service each. -/
def MgrState.respond (m : MgrState) : MgrState := m.waiting.foldl respondStep m

/-- Modelled from the spec (section 4.3): a Next request parks at the head
of the queue of its Watcher. -/
def MgrState.handleNext (m : MgrState) (w rid : Nat) : MgrState :=
  { m with waiting := pushReq w rid m.waiting }

/-- Modelled from the spec (section 4.3, Watcher stop): reply false to
every parked request of the Watcher, drop its queue, and release the
references it held. -/
def MgrState.handleStop (m : MgrState) (w : Nat) : MgrState :=
  { store := m.store.leave (getRevno m w),
    wrevnos := m.wrevnos,
    waiting := alRemove w m.waiting,
    replies := m.replies ++ ((alLookup w m.waiting).getD []).map
      (fun r => { rid := r, value := .data false [] }) }

/-- All request ids parked anywhere. -/
def allRids (l : List (Nat × List Nat)) : List Nat :=
  l.foldr (fun p acc => p.2 ++ acc) []


/-- Status of the StoreManager loop (spec section 4.3 state machine). -/
inductive MgrStatus where
  | running
  | failed (msg : String)
  | stopped
deriving DecidableEq

/-- The full loop state: status plus request-routing state. -/
structure LoopState where
  status : MgrStatus
  mgr : MgrState
deriving DecidableEq

/-- One input to the StoreManager event loop: a Backing change
notification together with the outcome of the re-fetch (an error, not
found, or a value), a Next request, a Watcher stop, or termination. -/
inductive LoopEvent where
  | backingChange (id : EntityId) (fetched : Except String (Option EntityInfo))
  | next (w rid : Nat)
  | stopWatcher (w : Nat)
  | terminate

/-- The terminal error of a cleanly stopped Watcher. -/
def watcherStoppedMsg : String := "state watcher was stopped"

/-- Replies failing every parked request with a terminal error. -/
def failReplies (waiting : List (Nat × List Nat)) (msg : String) : List Reply :=
  (allRids waiting).map (fun r => { rid := r, value := .failure msg })

/-- Modelled from the spec (sections 4.3 and 7): one step of the
StoreManager event loop.  In Running state, a Backing change is fetched
and applied (Remove on not found, Update on a value) followed by respond,
while a fetch error moves to Failed and fails every pending request; Next
parks a request and responds; a Watcher stop is processed.  In Failed and
Stopped states requests are refused with the terminal error. -/
def stepEvent (ls : LoopState) (ev : LoopEvent) : LoopState :=
  match ls.status with
  | .failed msg =>
      match ev with
      | .next _ rid =>
          { ls with mgr := { ls.mgr with
              replies := ls.mgr.replies ++ [{ rid := rid, value := .failure msg }] } }
      | _ => ls
  | .stopped =>
      match ev with
      | .next _ rid =>
          { ls with mgr := { ls.mgr with
              replies := ls.mgr.replies ++
                [{ rid := rid, value := .failure watcherStoppedMsg }] } }
      | _ => ls
  | .running =>
      match ev with
      | .backingChange id fetched =>
          match fetched with
          | .error msg =>
              { status := .failed msg,
                mgr := { ls.mgr with
                  replies := ls.mgr.replies ++ failReplies ls.mgr.waiting msg,
                  waiting := [] } }
          | .ok none =>
              { ls with mgr := ({ ls.mgr with store := ls.mgr.store.Remove id }).respond }
          | .ok (some info) =>
              { ls with mgr := ({ ls.mgr with store := ls.mgr.store.Update info }).respond }
      | .next w rid => { ls with mgr := (ls.mgr.handleNext w rid).respond }
      | .stopWatcher w => { ls with mgr := ls.mgr.handleStop w }
      | .terminate =>
          { status := .stopped,
            mgr := { ls.mgr with
              replies := ls.mgr.replies ++ failReplies ls.mgr.waiting watcherStoppedMsg,
              waiting := [] } }

/-- A small manager used in concrete witnesses: one Watcher (number 0) at
position 0 with two parked requests (2 newest, then 1), over a Store
holding one entry. -/
def sampleMgr : MgrState :=
  { store := sampleStoreA, wrevnos := [], waiting := [(0, [2, 1])], replies := [] }

/-- A running loop state over the sample manager. -/
def sampleLoop : LoopState := { status := .running, mgr := sampleMgr }

end Multiwatcher

namespace BridgePolicy

/-- One hexadecimal digit (lower case). -/
def hexDigit (n : Nat) : Char :=
  if n < 10 then Char.ofNat (48 + n) else Char.ofNat (87 + n)

/-- Fixed-width 6-digit lower-case hexadecimal rendering, as the 0.6x
format produces for a value below 2 to the 24. -/
def hex6 (n : Nat) : List Char :=
  (List.range 6).map (fun i => hexDigit (n / 16 ^ (5 - i) % 16))

/-- One bit step of the reflected CRC-32 (IEEE polynomial 0xEDB88320). -/
def crc32Bit (crc : Nat) : Nat :=
  if crc % 2 = 1 then (crc / 2) ^^^ 0xEDB88320 else crc / 2

/-- One byte step of CRC-32 (IEEE). -/
def crc32Byte (crc b : Nat) : Nat := crc32Bit^[8] (crc ^^^ b)

/-- CRC-32 (IEEE) of a device name; characters are identified with bytes
(device names are ASCII). -/
def crc32 (l : List Char) : Nat :=
  (l.foldl (fun crc c => crc32Byte crc (c.toNat % 256)) 0xFFFFFFFF) ^^^ 0xFFFFFFFF

/-- The dot-to-dash replacement applied first to the device name. -/
def dashDots (device : List Char) : List Char :=
  device.map (fun c => if c = '.' then '-' else c)

/-- Translation of BridgeNameForDevice from the container bridge policy
code in the sources: replace every dot by a dash; under 13 characters the
result takes the br- marker; exactly 13 takes b-; longer names starting
with en drop the en and take b-; any other long name becomes b-, a 6
digit CRC-32 fragment of the name, a dash, and the last 6 characters of
the name.  Strings are modelled as their character lists. -/
def BridgeNameForDevice (device : List Char) : List Char :=
  if (dashDots device).length < 13 then 'b' :: 'r' :: '-' :: dashDots device
  else if (dashDots device).length = 13 then 'b' :: '-' :: dashDots device
  else if (dashDots device).take 2 = ['e', 'n'] then
    'b' :: '-' :: (dashDots device).drop 2
  else
    'b' :: '-' :: (hex6 (crc32 (dashDots device) &&& 0xffffff) ++
      '-' :: (dashDots device).drop ((dashDots device).length - 6))

end BridgePolicy

namespace StorageCommon

/-- The fields of a block device record that MatchingBlockDevice
inspects. -/
structure BlockDeviceInfo where
  DeviceName : String
  DeviceLinks : List String
  HardwareId : String
  WWN : String
  BusAddress : String
  SerialId : String
deriving DecidableEq

/-- The fields of a volume info record that MatchingBlockDevice
inspects. -/
structure VolumeInfo where
  HardwareId : String
  WWN : String
  VolumeId : String
deriving DecidableEq

/-- The fields of a volume attachment record that MatchingBlockDevice
inspects. -/
structure VolumeAttachmentInfo where
  DeviceName : String
  DeviceLink : String
  BusAddress : String
deriving DecidableEq

/-- One matching criterion of MatchingBlockDevice: when its key is
nonempty, the first device satisfying the predicate; otherwise, and when
no device matches, the criterion fails and the next one is tried. -/
def tryCriterion (key : String) (devs : List BlockDeviceInfo)
    (p : BlockDeviceInfo → Bool) : Option BlockDeviceInfo :=
  if key = "" then none else devs.find? p

/-- Translation of MatchingBlockDevice from the storagecommon code in the
sources: nine criteria are tried in order, each scanning the devices in
order and returning the first match: plan hardware id, plan WWN, plan
device name, volume WWN, volume hardware id, volume id against the device
serial id as a prefix, attachment bus address, attachment device link,
attachment device name. -/
def MatchingBlockDevice (blockDevices : List BlockDeviceInfo)
    (volumeInfo : VolumeInfo) (attachmentInfo : VolumeAttachmentInfo)
    (planBlockInfo : BlockDeviceInfo) : Option BlockDeviceInfo × Bool :=
  match tryCriterion planBlockInfo.HardwareId blockDevices
      (fun dev => decide (planBlockInfo.HardwareId = dev.HardwareId)) with
  | some dev => (some dev, true)
  | none =>
  match tryCriterion planBlockInfo.WWN blockDevices
      (fun dev => decide (planBlockInfo.WWN = dev.WWN)) with
  | some dev => (some dev, true)
  | none =>
  match tryCriterion planBlockInfo.DeviceName blockDevices
      (fun dev => decide (planBlockInfo.DeviceName = dev.DeviceName)) with
  | some dev => (some dev, true)
  | none =>
  match tryCriterion volumeInfo.WWN blockDevices
      (fun dev => decide (volumeInfo.WWN = dev.WWN)) with
  | some dev => (some dev, true)
  | none =>
  match tryCriterion volumeInfo.HardwareId blockDevices
      (fun dev => decide (volumeInfo.HardwareId = dev.HardwareId)) with
  | some dev => (some dev, true)
  | none =>
  match tryCriterion volumeInfo.VolumeId blockDevices
      (fun dev => !(decide (dev.SerialId = "")) &&
        dev.SerialId.isPrefixOf volumeInfo.VolumeId) with
  | some dev => (some dev, true)
  | none =>
  match tryCriterion attachmentInfo.BusAddress blockDevices
      (fun dev => decide (attachmentInfo.BusAddress = dev.BusAddress)) with
  | some dev => (some dev, true)
  | none =>
  match tryCriterion attachmentInfo.DeviceLink blockDevices
      (fun dev => dev.DeviceLinks.contains attachmentInfo.DeviceLink) with
  | some dev => (some dev, true)
  | none =>
  match tryCriterion attachmentInfo.DeviceName blockDevices
      (fun dev => decide (attachmentInfo.DeviceName = dev.DeviceName)) with
  | some dev => (some dev, true)
  | none => (none, false)

/-- A sample device record used in concrete witnesses. -/
def sampleDev : BlockDeviceInfo :=
  { DeviceName := "sda", DeviceLinks := [], HardwareId := "hw-1", WWN := "",
    BusAddress := "", SerialId := "" }

/-- A sample plan record whose HardwareId matches sampleDev. -/
def samplePlan : BlockDeviceInfo :=
  { DeviceName := "", DeviceLinks := [], HardwareId := "hw-1", WWN := "wwn-2",
    BusAddress := "", SerialId := "" }

/-- A sample volume record with no usable keys. -/
def sampleVolume : VolumeInfo := { HardwareId := "", WWN := "", VolumeId := "" }

/-- A sample attachment record with no usable keys. -/
def sampleAttachment : VolumeAttachmentInfo :=
  { DeviceName := "", DeviceLink := "", BusAddress := "" }

end StorageCommon

namespace Multiwatcher

theorem entryWf_mono {l l' : Int} (h : l ≤ l') {e : EntityEntry} :
    EntryWf l e → EntryWf l' e :=
  fun ⟨h1, h2, h3⟩ => ⟨h1, h2, le_trans h3 h⟩

theorem deleteId_sublist (l : List EntityEntry) (id : EntityId) :
    List.Sublist (deleteId l id) l :=
  List.filter_sublist l

theorem mem_deleteId {l : List EntityEntry} {id : EntityId} {e : EntityEntry}
    (h : e ∈ deleteId l id) : e ∈ l ∧ e.info.entityId ≠ id := by
  unfold deleteId at h
  rcases List.mem_filter.mp h with ⟨h1, h2⟩
  refine ⟨h1, ?_⟩
  simpa using h2

theorem wf_deleteId {s : Store} (id : EntityId) (h : s.Wf) :
    Store.Wf { s with entries := deleteId s.entries id } := by
  obtain ⟨h0, h1, h2, h3⟩ := h
  refine ⟨h0, ?_, ?_, ?_⟩
  · intro e he
    exact h1 e (mem_deleteId he).1
  · exact h2.sublist (deleteId_sublist _ _)
  · exact h3.sublist (deleteId_sublist _ _)

theorem wf_append_new {s : Store} {x : EntityEntry} (h : s.Wf)
    (hx1 : 1 ≤ x.creationRevno) (hx2 : x.creationRevno ≤ x.revno)
    (hx3 : x.revno = s.latestRevno + 1)
    (hid : ∀ e ∈ s.entries, e.info.entityId ≠ x.info.entityId) :
    Store.Wf { latestRevno := s.latestRevno + 1, entries := s.entries ++ [x] } := by
  obtain ⟨h0, h1, h2, h3⟩ := h
  refine ⟨by dsimp only; omega, ?_, ?_, ?_⟩
  · intro e he
    rcases List.mem_append.mp he with he | he
    · exact entryWf_mono (by dsimp only; omega) (h1 e he)
    · rw [List.mem_singleton.mp he]
      exact ⟨hx1, hx2, by dsimp only; omega⟩
  · refine List.pairwise_append.mpr ⟨h2, List.pairwise_singleton _ _, ?_⟩
    intro a ha b hb
    rw [List.mem_singleton.mp hb, hx3]
    have := (h1 a ha).2.2
    omega
  · refine List.pairwise_append.mpr ⟨h3, List.pairwise_singleton _ _, ?_⟩
    intro a ha b hb
    rw [List.mem_singleton.mp hb]
    exact hid a ha

theorem wf_delete_append {s : Store} {id : EntityId} {x : EntityEntry} (h : s.Wf)
    (hx1 : 1 ≤ x.creationRevno) (hx2 : x.creationRevno ≤ x.revno)
    (hx3 : x.revno = s.latestRevno + 1)
    (hxid : x.info.entityId = id) :
    Store.Wf { latestRevno := s.latestRevno + 1,
               entries := deleteId s.entries id ++ [x] } := by
  obtain ⟨h0, h1, h2, h3⟩ := h
  refine ⟨by dsimp only; omega, ?_, ?_, ?_⟩
  · intro e he
    rcases List.mem_append.mp he with he | he
    · exact entryWf_mono (by dsimp only; omega) (h1 e (mem_deleteId he).1)
    · rw [List.mem_singleton.mp he]
      exact ⟨hx1, hx2, by dsimp only; omega⟩
  · refine List.pairwise_append.mpr
      ⟨h2.sublist (deleteId_sublist _ _), List.pairwise_singleton _ _, ?_⟩
    intro a ha b hb
    rw [List.mem_singleton.mp hb, hx3]
    have := (h1 a (mem_deleteId ha).1).2.2
    omega
  · refine List.pairwise_append.mpr
      ⟨h3.sublist (deleteId_sublist _ _), List.pairwise_singleton _ _, ?_⟩
    intro a ha b hb
    rw [List.mem_singleton.mp hb, hxid]
    exact (mem_deleteId ha).2

theorem wf_setEntry {s : Store} {id : EntityId} {f : EntityEntry → EntityEntry}
    (hf : ∀ x, (f x).info = x.info ∧ (f x).creationRevno = x.creationRevno ∧
      (f x).revno = x.revno)
    (h : s.Wf) : Store.Wf { s with entries := setEntry s.entries id f } := by
  obtain ⟨h0, h1, h2, h3⟩ := h
  have hg : ∀ x : EntityEntry,
      (if x.info.entityId = id then f x else x).info = x.info ∧
      (if x.info.entityId = id then f x else x).creationRevno = x.creationRevno ∧
      (if x.info.entityId = id then f x else x).revno = x.revno := by
    intro x
    by_cases hx : x.info.entityId = id
    · simpa [hx] using hf x
    · simp [hx]
  refine ⟨h0, ?_, ?_, ?_⟩
  · intro e he
    rcases List.mem_map.mp he with ⟨a, ha, rfl⟩
    have := h1 a ha
    obtain ⟨-, hc, hr⟩ := hg a
    exact ⟨by rw [hc]; exact this.1, by rw [hc, hr]; exact this.2.1, by rw [hr]; exact this.2.2⟩
  · refine List.pairwise_map.mpr (h2.imp ?_)
    intro a b hab
    rw [(hg a).2.2, (hg b).2.2]
    exact hab
  · refine List.pairwise_map.mpr (h3.imp ?_)
    intro a b hab
    rw [(hg a).1, (hg b).1]
    exact hab

theorem wf_empty : Store.empty.Wf := by
  refine ⟨le_refl 0, ?_, ?_, ?_⟩ <;> simp [Store.empty]

theorem wf_update {s : Store} (info : EntityInfo) (h : s.Wf) :
    (s.Update info).Wf := by
  unfold Store.Update
  cases hf : findEntry s info.entityId with
  | none =>
      refine wf_append_new h (by dsimp only; have := h.1; omega)
        (by dsimp only; omega) rfl ?_
      intro e he
      have := List.find?_eq_none.mp hf e he
      simpa using this
  | some e =>
      have he : e ∈ s.entries ∧ e.info.entityId = info.entityId := by
        have h1 := List.mem_of_find?_eq_some hf
        have h2 := List.find?_some hf
        exact ⟨h1, by simpa using h2⟩
      have hwf := h.2.1 e he.1
      exact wf_delete_append h hwf.1 (by have := hwf.2.1; have := hwf.2.2; simp; omega) rfl rfl

theorem wf_remove {s : Store} (id : EntityId) (h : s.Wf) :
    (s.Remove id).Wf := by
  unfold Store.Remove
  cases hf : findEntry s id with
  | none => exact h
  | some e =>
      have he : e ∈ s.entries ∧ e.info.entityId = id := by
        have h1 := List.mem_of_find?_eq_some hf
        have h2 := List.find?_some hf
        exact ⟨h1, by simpa using h2⟩
      have hwf := h.2.1 e he.1
      by_cases hrem : e.removed = true
      · simp only [hrem, if_true]
        exact h
      · simp only [hrem, if_false]
        by_cases hrc : e.refCount = 0
        · simp only [hrc, if_true]
          have := wf_deleteId (s := { s with latestRevno := s.latestRevno + 1 }) id
            ⟨by dsimp only; have := h.1; omega,
             fun e he => entryWf_mono (by dsimp only; omega) (h.2.1 e he), h.2.2⟩
          simpa using this
        · simp only [hrc, if_false]
          exact wf_delete_append h hwf.1 (by have := hwf.2.1; have := hwf.2.2; simp; omega)
            rfl he.2

theorem wf_incRef {s : Store} (id : EntityId) (h : s.Wf) :
    (s.incRef id).Wf :=
  wf_setEntry (fun _ => ⟨rfl, rfl, rfl⟩) h

theorem wf_decRef {s : Store} (id : EntityId) (h : s.Wf) :
    (s.decRef id).Wf := by
  unfold Store.decRef
  cases hf : findEntry s id with
  | none => exact h
  | some e =>
      by_cases hc : e.removed = true ∧ e.refCount - 1 = 0
      · simp only [if_pos hc]
        exact wf_deleteId id h
      · simp only [if_neg hc]
        exact wf_setEntry (fun x => ⟨rfl, rfl, rfl⟩) h

theorem wf_applyOp {s : Store} (op : StoreOp) (h : s.Wf) : (applyOp s op).Wf := by
  cases op with
  | update info => exact wf_update info h
  | remove id => exact wf_remove id h
  | incRef id => exact wf_incRef id h
  | decRef id => exact wf_decRef id h

theorem wf_runOps (ops : List StoreOp) : (runOps ops).Wf := by
  suffices h : ∀ s : Store, s.Wf → (ops.foldl applyOp s).Wf from h Store.empty wf_empty
  induction ops with
  | nil => exact fun s hs => hs
  | cons op rest ih =>
      intro s hs
      exact ih (applyOp s op) (wf_applyOp op hs)

theorem takeWhile_eq_filter {α : Type} (p : α → Bool) :
    ∀ l : List α, l.Pairwise (fun a b => p b = true → p a = true) →
      l.takeWhile p = l.filter p
  | [], _ => rfl
  | x :: xs, h => by
    rcases List.pairwise_cons.mp h with ⟨hx, hxs⟩
    cases hp : p x with
    | true =>
        simp only [List.takeWhile_cons, List.filter_cons, hp, if_true,
          takeWhile_eq_filter p xs hxs]
    | false =>
        have hnil : xs.filter p = [] := by
          refine List.filter_eq_nil_iff.mpr ?_
          intro b hb hpb
          have := hx b hb hpb
          rw [hp] at this
          exact Bool.false_ne_true this
        simp only [List.takeWhile_cons, List.filter_cons, hp, if_false, hnil,
          Bool.false_eq_true, cond_false]

/-- ChangesSince of a revno-sorted Store equals, as the claim phrases it,
the in-order deltas of the entries satisfying the reportability
condition. -/
theorem changesSince_eq_filter (s : Store)
    (hs : s.entries.Pairwise (fun a b => a.revno < b.revno)) (since : Int) :
    s.ChangesSince since = (s.entries.filter (reportable since)).map toDelta := by
  unfold Store.ChangesSince
  have hrev : s.entries.reverse.Pairwise
      (fun a b => decide (since < b.revno) = true → decide (since < a.revno) = true) := by
    rw [List.pairwise_reverse]
    refine hs.imp ?_
    intro a b hab hlt
    have h1 : since < a.revno := of_decide_eq_true hlt
    exact decide_eq_true (by omega)
  rw [takeWhile_eq_filter _ _ hrev, List.filter_reverse, List.filter_filter,
    List.filter_reverse, List.reverse_reverse]
  refine congrArg (List.map toDelta) (List.filter_congr ?_)
  intro e _
  unfold reportable
  exact Bool.and_comm _ _

/-- Over a well-formed Store, the reportability test at sinceRevno -1
agrees with the test at 0, and at any revno at or above latestRevno it is
false everywhere. -/
theorem reportable_neg_one (s : Store) (h : s.Wf) (e : EntityEntry)
    (he : e ∈ s.entries) : reportable (-1) e = reportable 0 e := by
  obtain ⟨h1, h2, h3⟩ := h.2.1 e he
  unfold reportable
  have ha : decide ((-1 : Int) < e.revno) = true := decide_eq_true (by omega)
  have hb : decide ((0 : Int) < e.revno) = true := decide_eq_true (by omega)
  have hc : decide ((-1 : Int) < e.creationRevno) = true := decide_eq_true (by omega)
  have hd : decide ((0 : Int) < e.creationRevno) = true := decide_eq_true (by omega)
  rw [ha, hb, hc, hd]

theorem changesSince_runOps_eq (ops : List StoreOp) (since : Int) :
    (runOps ops).ChangesSince since =
      ((runOps ops).entries.filter (reportable since)).map toDelta :=
  changesSince_eq_filter (runOps ops) (wf_runOps ops).2.2.1 since

/-- The test with which Watcher stop processing selects entries to decRef:
the Watcher has observed the entry (creationRevno ≤ its revno) and has not
already consumed its removal (not (removed and revno ≤ its revno)). -/

theorem find?_deleteId_ne {l : List EntityEntry} {i j : EntityId} (h : j ≠ i) :
    (deleteId l i).find? (fun e => decide (e.info.entityId = j)) =
      l.find? (fun e => decide (e.info.entityId = j)) := by
  induction l with
  | nil => rfl
  | cons x xs ih =>
      by_cases hx : x.info.entityId = i
      · have hxj : ¬ x.info.entityId = j := by
          rw [hx]
          exact fun hh => h hh.symm
        have hdel : deleteId (x :: xs) i = deleteId xs i := by
          unfold deleteId
          rw [List.filter_cons, decide_eq_true hx]
          simp
        rw [hdel, ih, List.find?_cons_of_neg _ (by simpa using hxj)]
      · have hdel : deleteId (x :: xs) i = x :: deleteId xs i := by
          unfold deleteId
          rw [List.filter_cons, decide_eq_false hx]
          simp
        rw [hdel]
        by_cases hpx : x.info.entityId = j
        · rw [List.find?_cons_of_pos _ (by simpa using hpx),
            List.find?_cons_of_pos _ (by simpa using hpx)]
        · rw [List.find?_cons_of_neg _ (by simpa using hpx),
            List.find?_cons_of_neg _ (by simpa using hpx), ih]

theorem find?_deleteId_self (l : List EntityEntry) (i : EntityId) :
    (deleteId l i).find? (fun e => decide (e.info.entityId = i)) = none := by
  refine List.find?_eq_none.mpr ?_
  intro x hx
  simp only [decide_eq_true_eq]
  exact (mem_deleteId hx).2

theorem find?_setEntry_ne {l : List EntityEntry} {i j : EntityId}
    {f : EntityEntry → EntityEntry} (hf : ∀ x, (f x).info = x.info) (h : j ≠ i) :
    (setEntry l i f).find? (fun e => decide (e.info.entityId = j)) =
      l.find? (fun e => decide (e.info.entityId = j)) := by
  induction l with
  | nil => rfl
  | cons x xs ih =>
      have hset : setEntry (x :: xs) i f =
          (if x.info.entityId = i then f x else x) :: setEntry xs i f := rfl
      rw [hset]
      by_cases hx : x.info.entityId = i
      · have hxj : ¬ x.info.entityId = j := by
          rw [hx]
          exact fun hh => h hh.symm
        have hfxj : ¬ (f x).info.entityId = j := by
          rw [hf x]
          exact hxj
        rw [if_pos hx, List.find?_cons_of_neg _ (by simpa using hfxj),
          List.find?_cons_of_neg _ (by simpa using hxj), ih]
      · rw [if_neg hx]
        by_cases hpx : x.info.entityId = j
        · rw [List.find?_cons_of_pos _ (by simpa using hpx),
            List.find?_cons_of_pos _ (by simpa using hpx)]
        · rw [List.find?_cons_of_neg _ (by simpa using hpx),
            List.find?_cons_of_neg _ (by simpa using hpx), ih]

theorem find?_setEntry_self {l : List EntityEntry} {i : EntityId} {e : EntityEntry}
    {f : EntityEntry → EntityEntry} (hf : ∀ x, (f x).info = x.info)
    (h : l.find? (fun x => decide (x.info.entityId = i)) = some e) :
    (setEntry l i f).find? (fun x => decide (x.info.entityId = i)) = some (f e) := by
  induction l with
  | nil => cases h
  | cons x xs ih =>
      have hset : setEntry (x :: xs) i f =
          (if x.info.entityId = i then f x else x) :: setEntry xs i f := rfl
      rw [hset]
      by_cases hx : x.info.entityId = i
      · rw [List.find?_cons_of_pos _ (by simpa using hx)] at h
        have hex : x = e := Option.some.inj h
        have hfxi : (f x).info.entityId = i := by
          rw [hf x]
          exact hx
        rw [if_pos hx, List.find?_cons_of_pos _ (by simpa using hfxi), hex]
      · rw [List.find?_cons_of_neg _ (by simpa using hx)] at h
        rw [if_neg hx, List.find?_cons_of_neg _ (by simpa using hx)]
        exact ih h

theorem findEntry_decRef_ne {s : Store} {i j : EntityId} (h : j ≠ i) :
    findEntry (s.decRef i) j = findEntry s j := by
  unfold Store.decRef
  cases hf : findEntry s i with
  | none => rfl
  | some e =>
      by_cases hc : e.removed = true ∧ e.refCount - 1 = 0
      · simp only [if_pos hc]
        exact find?_deleteId_ne h
      · simp only [if_neg hc]
        exact find?_setEntry_ne (fun x => rfl) h

theorem findEntry_decRef_self (s : Store) (i : EntityId) :
    findEntry (s.decRef i) i = Option.bind (findEntry s i) decRefStep := by
  unfold Store.decRef
  cases hf : findEntry s i with
  | none =>
      rw [Option.bind]
      exact hf
  | some e =>
      by_cases hc : e.removed = true ∧ e.refCount - 1 = 0
      · simp only [if_pos hc]
        rw [Option.bind, decRefStep, if_pos hc]
        exact find?_deleteId_self s.entries i
      · simp only [if_neg hc]
        rw [Option.bind, decRefStep, if_neg hc]
        exact find?_setEntry_self (fun x => rfl) hf

theorem findEntry_foldl_decRef :
    ∀ (ids : List EntityId) (s : Store) (j : EntityId),
      ids.Pairwise (fun a b => a ≠ b) →
      findEntry (ids.foldl Store.decRef s) j =
        if j ∈ ids then Option.bind (findEntry s j) decRefStep else findEntry s j
  | [], s, j, _ => by simp
  | i :: rest, s, j, h => by
      rcases List.pairwise_cons.mp h with ⟨hi, hrest⟩
      rw [List.foldl_cons]
      by_cases hji : j = i
      · have hnot : j ∉ rest := by
          rw [hji]
          intro hmem
          exact hi i hmem rfl
        rw [findEntry_foldl_decRef rest (s.decRef i) j hrest, if_neg hnot,
          if_pos (by rw [hji]; exact List.mem_cons_self i rest), hji,
          findEntry_decRef_self]
      · rw [findEntry_foldl_decRef rest (s.decRef i) j hrest]
        by_cases hjr : j ∈ rest
        · rw [if_pos hjr, if_pos (List.mem_cons_of_mem i hjr),
            findEntry_decRef_ne hji]
        · rw [if_neg hjr, findEntry_decRef_ne hji,
            if_neg (by intro hc; cases List.mem_cons.mp hc with
              | inl hh => exact hji hh
              | inr hh => exact hjr hh)]

theorem find?_of_mem_unique {l : List EntityEntry} {e : EntityEntry}
    (hu : l.Pairwise (fun a b => a.info.entityId ≠ b.info.entityId))
    (he : e ∈ l) :
    l.find? (fun x => decide (x.info.entityId = e.info.entityId)) = some e := by
  induction l with
  | nil => cases he
  | cons x xs ih =>
      rcases List.pairwise_cons.mp hu with ⟨hx, hxs⟩
      rcases List.mem_cons.mp he with he | he
      · rw [List.find?_cons, he, decide_eq_true rfl]
      · rw [List.find?_cons, decide_eq_false (hx e he)]
        exact ih hxs he

theorem eq_of_mem_same_id {l : List EntityEntry} {x e : EntityEntry}
    (hu : l.Pairwise (fun a b => a.info.entityId ≠ b.info.entityId))
    (hx : x ∈ l) (he : e ∈ l) (hid : x.info.entityId = e.info.entityId) : x = e := by
  induction l with
  | nil => cases hx
  | cons y ys ih =>
      rcases List.pairwise_cons.mp hu with ⟨hy, hys⟩
      rcases List.mem_cons.mp hx with hx | hx <;> rcases List.mem_cons.mp he with he | he
      · rw [hx, he]
      · exact absurd hid (by rw [hx]; exact hy e he)
      · exact absurd hid.symm (by rw [he]; exact hy x hx)
      · exact ih hys hx he

theorem mem_leaveIds {s : Store} {wrevno : Int} {e : EntityEntry}
    (hu : s.entries.Pairwise (fun a b => a.info.entityId ≠ b.info.entityId))
    (he : e ∈ s.entries) :
    e.info.entityId ∈ leaveIds s wrevno ↔ seenByWatcher wrevno e = true := by
  constructor
  · intro hmem
    rcases List.mem_map.mp hmem with ⟨x, hxf, hxid⟩
    rcases List.mem_filter.mp hxf with ⟨hxl, hxp⟩
    rw [eq_of_mem_same_id hu hxl he hxid] at hxp
    exact hxp
  · intro hseen
    exact List.mem_map.mpr ⟨e, List.mem_filter.mpr ⟨he, hseen⟩, rfl⟩

theorem leaveIds_pairwise {s : Store} (wrevno : Int)
    (hu : s.entries.Pairwise (fun a b => a.info.entityId ≠ b.info.entityId)) :
    (leaveIds s wrevno).Pairwise (fun a b => a ≠ b) := by
  unfold leaveIds
  exact List.pairwise_map.mpr ((hu.sublist (List.filter_sublist _)).imp (fun h => h))

/-- Characterization of Watcher stop processing: each entry of a Store
with unique ids ends up exactly as leaveStep describes. -/
theorem findEntry_leave {s : Store} {wrevno : Int} {e : EntityEntry}
    (hu : s.entries.Pairwise (fun a b => a.info.entityId ≠ b.info.entityId))
    (he : e ∈ s.entries) :
    findEntry (s.leave wrevno) e.info.entityId = leaveStep wrevno e := by
  unfold Store.leave
  rw [findEntry_foldl_decRef (leaveIds s wrevno) s e.info.entityId
    (leaveIds_pairwise wrevno hu)]
  have hfind : findEntry s e.info.entityId = some e := find?_of_mem_unique hu he
  by_cases hseen : seenByWatcher wrevno e = true
  · rw [if_pos ((mem_leaveIds hu he).mpr hseen), hfind, Option.bind]
    unfold seenByWatcher at hseen
    rcases Bool.and_eq_true_iff.mp hseen with ⟨h1, h2⟩
    have hc1 : e.creationRevno ≤ wrevno := of_decide_eq_true h1
    have hc2 : ¬(e.removed = true ∧ e.revno ≤ wrevno) := by
      intro ⟨ha, hb⟩
      rw [ha, decide_eq_true hb] at h2
      simp at h2
    rw [leaveStep, if_neg (by omega), if_neg hc2]
  · rw [if_neg (fun hmem => hseen ((mem_leaveIds hu he).mp hmem)), hfind]
    unfold seenByWatcher at hseen
    rw [leaveStep]
    by_cases hc1 : wrevno < e.creationRevno
    · rw [if_pos hc1]
    · rw [if_neg hc1]
      have hc2 : e.removed = true ∧ e.revno ≤ wrevno := by
        by_contra hc2
        refine hseen ?_
        rw [decide_eq_true (by omega : e.creationRevno ≤ wrevno)]
        cases hrm : e.removed with
        | false => rfl
        | true =>
            have : ¬ e.revno ≤ wrevno := fun hh => hc2 ⟨hrm, hh⟩
            rw [decide_eq_false this]
            rfl
      rw [if_pos hc2]

/-- Outcome delivered on the reply channel of a request: a data reply (the
boolean the reference code sends, plus the changes attached on success),
or a terminal error. -/

theorem alLookup_alSet {α : Type} (k : Nat) (v : α) :
    ∀ l : List (Nat × α), alLookup k (alSet k v l) = (alLookup k l).map (fun _ => v)
  | [] => rfl
  | p :: rest => by
      by_cases hp : p.1 = k
      · simp [alSet, alLookup, hp]
      · simp [alSet, alLookup, hp, alLookup_alSet k v rest]

theorem alLookup_alSet_ne {α : Type} {k k' : Nat} (v : α) (h : k ≠ k') :
    ∀ l : List (Nat × α), alLookup k (alSet k' v l) = alLookup k l
  | [] => rfl
  | p :: rest => by
      by_cases hp : p.1 = k'
      · have hk : ¬ ((k' : Nat) = k) := fun hh => h hh.symm
        simp [alSet, alLookup, hp, hk, alLookup_alSet_ne v h rest]
      · simp [alSet, alLookup, hp, alLookup_alSet_ne v h rest]

theorem alLookup_alRemove_ne {α : Type} {k k' : Nat} (h : k ≠ k') :
    ∀ l : List (Nat × α), alLookup k (alRemove k' l) = alLookup k l
  | [] => rfl
  | p :: rest => by
      by_cases hp : p.1 = k'
      · have hk : ¬ (p.1 = k) := by
          rw [hp]
          exact fun hh => h hh.symm
        have hk2 : ¬ ((k' : Nat) = k) := fun hh => h hh.symm
        simp [alRemove, alLookup, hp, hk, hk2, alLookup_alRemove_ne h rest]
      · simp only [alRemove, if_neg hp, alLookup]
        by_cases hpk : p.1 = k
        · rw [if_pos hpk, if_pos hpk]
        · rw [if_neg hpk, if_neg hpk]
          exact alLookup_alRemove_ne h rest

theorem alLookup_append_ne {α : Type} {k k' : Nat} (v : α) (h : k ≠ k') :
    ∀ l : List (Nat × α), alLookup k (l ++ [(k', v)]) = alLookup k l
  | [] => by
      simp only [List.nil_append, alLookup]
      rw [if_neg (fun hh => h hh.symm)]
  | p :: rest => by
      simp only [List.cons_append, alLookup]
      by_cases hpk : p.1 = k
      · rw [if_pos hpk, if_pos hpk]
      · rw [if_neg hpk, if_neg hpk]
        exact alLookup_append_ne v h rest

theorem alLookup_setRevno_ne {k k' : Nat} (r : Int) (h : k ≠ k')
    (l : List (Nat × Int)) : alLookup k (setRevno k' r l) = alLookup k l := by
  unfold setRevno
  cases alLookup k' l with
  | none => exact alLookup_append_ne r h l
  | some q => exact alLookup_alSet_ne r h l

theorem respondStep_lookup_ne {m : MgrState} {p : Nat × List Nat} {w : Nat}
    (h : p.1 ≠ w) :
    alLookup w (respondStep m p).waiting = alLookup w m.waiting ∧
    alLookup w (respondStep m p).wrevnos = alLookup w m.wrevnos := by
  obtain ⟨w', q⟩ := p
  have hne : w' ≠ w := h
  unfold respondStep
  dsimp only
  by_cases hc : m.store.ChangesSince (getRevno m w') = []
  · rw [if_pos hc]
    exact ⟨rfl, rfl⟩
  · rw [if_neg hc]
    cases q with
    | nil => exact ⟨rfl, rfl⟩
    | cons r rest =>
        have hwne : w ≠ w' := fun hh => hne hh.symm
        dsimp only
        refine ⟨?_, alLookup_setRevno_ne _ hwne _⟩
        by_cases hrest : rest = []
        · rw [if_pos hrest]
          exact alLookup_alRemove_ne hwne _
        · rw [if_neg hrest]
          exact alLookup_alSet_ne _ hwne _

theorem foldl_respondStep_lookup_ne {w : Nat} :
    ∀ (L : List (Nat × List Nat)) (m : MgrState), (∀ p ∈ L, p.1 ≠ w) →
      alLookup w ((L.foldl respondStep m).waiting) = alLookup w m.waiting ∧
      alLookup w ((L.foldl respondStep m).wrevnos) = alLookup w m.wrevnos
  | [], m, _ => ⟨rfl, rfl⟩
  | p :: L, m, h => by
      rw [List.foldl_cons]
      have hp := h p (List.mem_cons_self p L)
      have hrec := foldl_respondStep_lookup_ne L (respondStep m p)
        (fun q hq => h q (List.mem_cons_of_mem p hq))
      have hstep := respondStep_lookup_ne (m := m) hp
      exact ⟨hrec.1.trans hstep.1, hrec.2.trans hstep.2⟩

theorem respondStep_replies (m : MgrState) (p : Nat × List Nat) :
    ∃ u, (respondStep m p).replies = m.replies ++ u ∧
      ∀ rep ∈ u, rep.rid ∈ p.2 := by
  obtain ⟨w', q⟩ := p
  unfold respondStep
  dsimp only
  by_cases hc : m.store.ChangesSince (getRevno m w') = []
  · rw [if_pos hc]
    exact ⟨[], (List.append_nil _).symm, fun rep h => absurd h (List.not_mem_nil rep)⟩
  · rw [if_neg hc]
    cases q with
    | nil => exact ⟨[], (List.append_nil _).symm, fun rep h => absurd h (List.not_mem_nil rep)⟩
    | cons r rest =>
        refine ⟨[{ rid := r, value := .data true (m.store.ChangesSince (getRevno m w')) }],
          rfl, ?_⟩
        intro rep hrep
        rw [List.mem_singleton.mp hrep]
        exact List.mem_cons_self r rest

theorem foldl_respondStep_replies :
    ∀ (L : List (Nat × List Nat)) (m : MgrState),
      ∃ t, (L.foldl respondStep m).replies = m.replies ++ t ∧
        ∀ rep ∈ t, ∃ p ∈ L, rep.rid ∈ p.2
  | [], m => ⟨[], (List.append_nil _).symm, fun rep h => absurd h (List.not_mem_nil rep)⟩
  | p :: L, m => by
      rw [List.foldl_cons]
      obtain ⟨u, hu, hum⟩ := respondStep_replies m p
      obtain ⟨t, ht, htm⟩ := foldl_respondStep_replies L (respondStep m p)
      refine ⟨u ++ t, by rw [ht, hu, List.append_assoc], ?_⟩
      intro rep hrep
      rcases List.mem_append.mp hrep with hrep | hrep
      · exact ⟨p, List.mem_cons_self p L, hum rep hrep⟩
      · obtain ⟨q, hq, hqm⟩ := htm rep hrep
        exact ⟨q, List.mem_cons_of_mem p hq, hqm⟩

theorem mem_allRids {rid : Nat} :
    ∀ {L : List (Nat × List Nat)} {p : Nat × List Nat},
      p ∈ L → rid ∈ p.2 → rid ∈ allRids L := by
  intro L
  induction L with
  | nil => intro p hp; cases hp
  | cons q L ih =>
      intro p hp hr
      rcases List.mem_cons.mp hp with hp | hp
      · exact List.mem_append.mpr (Or.inl (by rw [← hp]; exact hr))
      · exact List.mem_append.mpr (Or.inr (ih hp hr))

theorem allRids_append :
    ∀ (L1 L2 : List (Nat × List Nat)),
      allRids (L1 ++ L2) = allRids L1 ++ allRids L2
  | [], L2 => rfl
  | p :: L1, L2 => by
      simp only [allRids, List.cons_append, List.foldr_cons]
      rw [← allRids, ← allRids, ← allRids, allRids_append L1 L2, List.append_assoc]

theorem alLookup_prefix_ne {α : Type} {w : Nat} (q : α) (L2 : List (Nat × α)) :
    ∀ L1 : List (Nat × α), (∀ p ∈ L1, p.1 ≠ w) →
      alLookup w (L1 ++ (w, q) :: L2) = some q
  | [], _ => by
      simp [alLookup]
  | p :: L1, h => by
      have hp : ¬ (p.1 = w) := h p (List.mem_cons_self p L1)
      simp only [List.cons_append, alLookup, if_neg hp]
      exact alLookup_prefix_ne q L2 L1 (fun r hr => h r (List.mem_cons_of_mem p hr))

theorem stepEvent_failed {ls : LoopState} {msg : String}
    (h : ls.status = .failed msg) (ev : LoopEvent) :
    (stepEvent ls ev).status = .failed msg := by
  rw [stepEvent.eq_def, h]
  cases ev with
  | backingChange id fetched => exact h
  | next w rid => rfl
  | stopWatcher w => exact h
  | terminate => exact h

theorem foldl_stepEvent_failed {msg : String} :
    ∀ (evs : List LoopEvent) (ls : LoopState), ls.status = .failed msg →
      (evs.foldl stepEvent ls).status = .failed msg
  | [], _, h => h
  | ev :: evs, ls, h =>
      foldl_stepEvent_failed evs (stepEvent ls ev) (stepEvent_failed h ev)

end Multiwatcher

namespace Multiwatcher

/-- C1: for every Store state reached by public mutations and every
integer sinceRevno, ChangesSince(sinceRevno) returns exactly one delta for
each entry whose revno > sinceRevno, except entries that are both removed
and have creationRevno > sinceRevno, which are not reported; the deltas
are in ascending revno order and each carries the entry info together
with a Removed flag equal to the removed field of the entry. -/
theorem C1_changesSince_reportable (ops : List StoreOp) (since : Int) :
    (runOps ops).ChangesSince since =
      ((runOps ops).entries.filter (reportable since)).map toDelta ∧
    ((runOps ops).entries.filter (reportable since)).Pairwise
      (fun a b => a.revno < b.revno) :=
  ⟨changesSince_runOps_eq ops since,
   ((wf_runOps ops).2.2.1).sublist (List.filter_sublist _)⟩

/-- C2 counterexample: after Update of machine 0 followed by Remove of
machine 0 (refCount 0, so the entry is physically deleted while
latestRevno is bumped to 2), the entry sequence is empty while latestRevno
is 2, not 0, so latestRevno does not equal the tail revno nor 0. -/
theorem C2_counterexample :
    tailRevnoOk (runOps [.update minfo0, .remove mid0]) = false := by decide

/-- C2 amended: after every sequence of public Store mutations from the
empty Store, latestRevno is nonnegative and bounds the revno of every
entry (in particular of the tail entry); it can exceed the tail revno,
because Remove of a zero-refCount entry bumps latestRevno while deleting
the entry. -/
theorem C2_latestRevno_bounds (ops : List StoreOp) :
    0 ≤ (runOps ops).latestRevno ∧
    ∀ e ∈ (runOps ops).entries, e.revno ≤ (runOps ops).latestRevno :=
  ⟨(wf_runOps ops).1, fun e he => ((wf_runOps ops).2.1 e he).2.2⟩

theorem C2_latestRevno_bounds_witness :
    0 ≤ (runOps [.update minfo0]).latestRevno ∧
    sampleEntry0.revno ≤ (runOps [.update minfo0]).latestRevno :=
  ⟨(C2_latestRevno_bounds [.update minfo0]).1,
   (C2_latestRevno_bounds [.update minfo0]).2 sampleEntry0 (by decide)⟩

/-- C3: in every Store satisfying the tombstone invariant (a removed entry
still present has a positive refCount), Remove of an id whose entry has
refCount 0 physically deletes the entry and increments latestRevno by
exactly 1. -/
theorem C3_remove_zero_refcount {s : Store} {id : EntityId} {e : EntityEntry}
    (hinv : ∀ x ∈ s.entries, x.removed = true → 1 ≤ x.refCount)
    (hfind : findEntry s id = some e) (hrc : e.refCount = 0) :
    findEntry (s.Remove id) id = none ∧
    (s.Remove id).latestRevno = s.latestRevno + 1 := by
  have hmem : e ∈ s.entries := List.mem_of_find?_eq_some hfind
  have hrem : ¬ (e.removed = true) := by
    intro hr
    have := hinv e hmem hr
    omega
  have hrm : s.Remove id =
      { latestRevno := s.latestRevno + 1, entries := deleteId s.entries id } := by
    rw [Store.Remove, hfind]
    dsimp only
    rw [if_neg hrem, if_pos hrc]
  rw [hrm]
  exact ⟨find?_deleteId_self s.entries id, rfl⟩

theorem C3_remove_zero_refcount_witness :
    findEntry (sampleStoreA.Remove mid0) mid0 = none ∧
    (sampleStoreA.Remove mid0).latestRevno = sampleStoreA.latestRevno + 1 :=
  @C3_remove_zero_refcount sampleStoreA mid0 sampleEntry0
    (by decide) (by decide) (by decide)

/-- C5: when a Watcher at position wrevno is stopped, every entry of a
Store with unique ids ends up exactly as the claim describes: untouched
when creationRevno > wrevno, untouched when removed with revno ≤ wrevno,
and otherwise with refCount decremented by exactly 1, a removed entry
reaching refCount 0 being physically deleted. -/
theorem C5_stop_refcounts {s : Store} {wrevno : Int} {e : EntityEntry}
    (hu : s.entries.Pairwise (fun a b => a.info.entityId ≠ b.info.entityId))
    (he : e ∈ s.entries) :
    findEntry (s.leave wrevno) e.info.entityId = leaveStep wrevno e :=
  findEntry_leave hu he

theorem C5_stop_refcounts_witness :
    findEntry (sampleStoreB.leave 1) sampleEntry1.info.entityId =
      leaveStep 1 sampleEntry1 :=
  C5_stop_refcounts (by decide) (by decide)

/-- C7: Remove of an id with no entry leaves the Store completely
unchanged, and in particular every later ChangesSince result is
unchanged, so no delta is ever emitted for the call. -/
theorem C7_remove_absent {s : Store} {id : EntityId}
    (h : findEntry s id = none) :
    s.Remove id = s ∧
    ∀ since : Int, (s.Remove id).ChangesSince since = s.ChangesSince since := by
  have h1 : s.Remove id = s := by rw [Store.Remove, h]
  exact ⟨h1, fun since => by rw [h1]⟩

theorem C7_remove_absent_witness :
    Store.empty.Remove mid0 = Store.empty ∧
    ∀ since : Int, (Store.empty.Remove mid0).ChangesSince since =
      Store.empty.ChangesSince since :=
  C7_remove_absent (by decide)

/-- C8: for every Store state reached by public mutations,
ChangesSince(-1) equals ChangesSince(0), which is the list of deltas of
all non-removed entries (all currently reportable deltas), and
ChangesSince(r) is empty for every r at or above latestRevno. -/
theorem C8_changesSince_bounds (ops : List StoreOp) :
    (runOps ops).ChangesSince (-1) = (runOps ops).ChangesSince 0 ∧
    (runOps ops).ChangesSince 0 =
      ((runOps ops).entries.filter (fun e => !e.removed)).map toDelta ∧
    ∀ r : Int, (runOps ops).latestRevno ≤ r → (runOps ops).ChangesSince r = [] := by
  have hwf := wf_runOps ops
  refine ⟨?_, ?_, ?_⟩
  · rw [changesSince_runOps_eq ops (-1), changesSince_runOps_eq ops 0]
    exact congrArg (List.map toDelta)
      (List.filter_congr (fun e he => reportable_neg_one _ hwf e he))
  · rw [changesSince_runOps_eq ops 0]
    refine congrArg (List.map toDelta) (List.filter_congr ?_)
    intro e he
    obtain ⟨hc1, hc2, hc3⟩ := hwf.2.1 e he
    unfold reportable
    rw [decide_eq_true (by omega : (0:Int) < e.revno),
      decide_eq_true (by omega : (0:Int) < e.creationRevno)]
    simp
  · intro r hr
    rw [changesSince_runOps_eq ops r]
    have hnil : (runOps ops).entries.filter (reportable r) = [] := by
      refine List.filter_eq_nil_iff.mpr ?_
      intro e he
      obtain ⟨hc1, hc2, hc3⟩ := hwf.2.1 e he
      unfold reportable
      rw [decide_eq_false (by omega : ¬ (r < e.revno))]
      simp
    rw [hnil]
    rfl

theorem C8_changesSince_bounds_witness :
    (runOps [.update minfo0]).latestRevno ≤ 5 ∧
    (runOps [.update minfo0]).ChangesSince 5 = [] :=
  ⟨by decide, (C8_changesSince_bounds [.update minfo0]).2.2 5 (by decide)⟩

/-- C4: in a manager whose Watcher keys are distinct and whose parked
request ids are globally distinct, a Watcher holding two or more parked
requests (r1 newest, then r2 and rest) for which respond() finds new
deltas has only its most recent request r1 replied (with the nonempty
batch); r2 and rest remain parked and unreplied, and a subsequent stop of
the Watcher replies false to each of them. -/
theorem C4_respond_most_recent {m : MgrState} {w r1 r2 : Nat} {rest : List Nat}
    {L1 L2 : List (Nat × List Nat)}
    (hsplit : m.waiting = L1 ++ (w, r1 :: r2 :: rest) :: L2)
    (hkeys : (m.waiting.map Prod.fst).Pairwise (fun a b => a ≠ b))
    (hrids : (allRids m.waiting).Pairwise (fun a b => a ≠ b))
    (hchanges : (L1.foldl respondStep m).store.ChangesSince
        (getRevno (L1.foldl respondStep m) w) ≠ []) :
    alLookup w (m.respond).waiting = some (r2 :: rest) ∧
    (∃ t, (m.respond).replies = m.replies ++ t ∧
      (∃ chg, chg ≠ [] ∧ ({ rid := r1, value := .data true chg } : Reply) ∈ t) ∧
      ∀ rep ∈ t, ¬ rep.rid ∈ r2 :: rest) ∧
    ((m.respond).handleStop w).replies =
      (m.respond).replies ++
        (r2 :: rest).map (fun r => { rid := r, value := .data false [] }) := by
  have hkeys' := hkeys
  rw [hsplit, List.map_append, List.map_cons] at hkeys'
  rcases List.pairwise_append.mp hkeys' with ⟨hk1, hk2, hk12⟩
  rcases List.pairwise_cons.mp hk2 with ⟨hkw, hkL2⟩
  have hL1w : ∀ p ∈ L1, p.1 ≠ w := fun p hp =>
    hk12 p.1 (List.mem_map_of_mem Prod.fst hp) w (List.mem_cons_self _ _)
  have hL2w : ∀ p ∈ L2, p.1 ≠ w := fun p hp hq =>
    (hkw p.1 (List.mem_map_of_mem Prod.fst hp)) hq.symm
  have hlookm : alLookup w m.waiting = some (r1 :: r2 :: rest) := by
    rw [hsplit]
    exact alLookup_prefix_ne _ _ L1 hL1w
  have hmidw : alLookup w (L1.foldl respondStep m).waiting = some (r1 :: r2 :: rest) :=
    (foldl_respondStep_lookup_ne L1 m hL1w).1.trans hlookm
  have hm1 : respondStep (L1.foldl respondStep m) (w, r1 :: r2 :: rest) =
      { store := seenChanges (L1.foldl respondStep m).store
          (getRevno (L1.foldl respondStep m) w)
          ((L1.foldl respondStep m).store.ChangesSince
            (getRevno (L1.foldl respondStep m) w)),
        wrevnos := setRevno w (L1.foldl respondStep m).store.latestRevno
          (L1.foldl respondStep m).wrevnos,
        waiting := alSet w (r2 :: rest) (L1.foldl respondStep m).waiting,
        replies := (L1.foldl respondStep m).replies ++
          [{ rid := r1, value := .data true
              ((L1.foldl respondStep m).store.ChangesSince
                (getRevno (L1.foldl respondStep m) w)) }] } := by
    rw [respondStep]
    dsimp only
    rw [if_neg hchanges]
    rw [if_neg (by simp : ¬ (r2 :: rest = []))]
  have hfold : m.respond =
      L2.foldl respondStep (respondStep (L1.foldl respondStep m) (w, r1 :: r2 :: rest)) := by
    rw [MgrState.respond, hsplit, List.foldl_append, List.foldl_cons]
  have hm1w : alLookup w (respondStep (L1.foldl respondStep m)
      (w, r1 :: r2 :: rest)).waiting = some (r2 :: rest) := by
    rw [hm1]
    dsimp only
    rw [alLookup_alSet w (r2 :: rest) _, hmidw]
    rfl
  have hfin1 : alLookup w (m.respond).waiting = some (r2 :: rest) := by
    rw [hfold, (foldl_respondStep_lookup_ne L2 _ hL2w).1]
    exact hm1w
  obtain ⟨t1, ht1, ht1m⟩ := foldl_respondStep_replies L1 m
  obtain ⟨t2, ht2, ht2m⟩ := foldl_respondStep_replies L2
    (respondStep (L1.foldl respondStep m) (w, r1 :: r2 :: rest))
  have hallr : allRids m.waiting =
      allRids L1 ++ ((r1 :: r2 :: rest) ++ allRids L2) := by
    rw [hsplit, allRids_append]
    rfl
  have hrids' := hrids
  rw [hallr] at hrids'
  rcases List.pairwise_append.mp hrids' with ⟨hrp1, hrp2, hrp12⟩
  rcases List.pairwise_append.mp hrp2 with ⟨hrq, hrL2, hrqL2⟩
  rcases List.pairwise_cons.mp hrq with ⟨hr1ne, hrq'⟩
  have hrepl : (m.respond).replies =
      m.replies ++ (t1 ++
        [{ rid := r1, value := .data true
            ((L1.foldl respondStep m).store.ChangesSince
              (getRevno (L1.foldl respondStep m) w)) }] ++ t2) := by
    rw [hfold, ht2, hm1]
    dsimp only
    rw [ht1]
    simp [List.append_assoc]
  refine ⟨hfin1, ⟨t1 ++
      [{ rid := r1, value := .data true
          ((L1.foldl respondStep m).store.ChangesSince
            (getRevno (L1.foldl respondStep m) w)) }] ++ t2, hrepl, ?_, ?_⟩, ?_⟩
  · refine ⟨(L1.foldl respondStep m).store.ChangesSince
      (getRevno (L1.foldl respondStep m) w), hchanges, ?_⟩
    exact List.mem_append.mpr (Or.inl (List.mem_append.mpr
      (Or.inr (List.mem_singleton.mpr rfl))))
  · intro rep hrep hmem
    rcases List.mem_append.mp hrep with hrep' | hrep'
    · rcases List.mem_append.mp hrep' with hrep'' | hrep''
      · obtain ⟨p, hp, hpr⟩ := ht1m rep hrep''
        exact hrp12 rep.rid (mem_allRids hp hpr) rep.rid
          (List.mem_append.mpr (Or.inl (List.mem_cons_of_mem r1 hmem))) rfl
      · have hx : rep.rid = r1 := by
          rw [List.mem_singleton.mp hrep'']
        rw [hx] at hmem
        exact hr1ne r1 hmem rfl
    · obtain ⟨p, hp, hpr⟩ := ht2m rep hrep'
      exact hrqL2 rep.rid (List.mem_cons_of_mem r1 hmem) rep.rid
        (mem_allRids hp hpr) rfl
  · rw [MgrState.handleStop]
    dsimp only
    rw [hfin1]
    rfl

theorem C4_respond_most_recent_witness :
    alLookup 0 sampleMgr.respond.waiting = some [1] ∧
    (∃ t, sampleMgr.respond.replies = sampleMgr.replies ++ t ∧
      (∃ chg, chg ≠ [] ∧ ({ rid := 2, value := .data true chg } : Reply) ∈ t) ∧
      ∀ rep ∈ t, ¬ rep.rid ∈ [1]) ∧
    (sampleMgr.respond.handleStop 0).replies =
      sampleMgr.respond.replies ++
        [1].map (fun r => ({ rid := r, value := .data false [] } : Reply)) :=
  @C4_respond_most_recent sampleMgr 0 2 1 [] [] []
    (by decide) (by decide) (by decide) (by decide)

/-- C6: when a Backing fetch fails with error E while the StoreManager is
running, the manager enters the Failed E state, every pending request is
replied with E, the pending queues are cleared, the manager remains in
Failed E over any further events, and every subsequent Next request is
replied with E (not with the WatcherStopped error). -/
theorem C6_backing_failure {ls : LoopState} {id : EntityId} {msg : String}
    (hrun : ls.status = .running) :
    (stepEvent ls (.backingChange id (.error msg))).status = .failed msg ∧
    (stepEvent ls (.backingChange id (.error msg))).mgr.waiting = [] ∧
    (∀ p ∈ ls.mgr.waiting, ∀ r ∈ p.2,
      ({ rid := r, value := .failure msg } : Reply) ∈
        (stepEvent ls (.backingChange id (.error msg))).mgr.replies) ∧
    (∀ evs : List LoopEvent,
      (evs.foldl stepEvent (stepEvent ls (.backingChange id (.error msg)))).status =
        .failed msg) ∧
    (∀ ls' : LoopState, ls'.status = .failed msg → ∀ w rid : Nat,
      (stepEvent ls' (.next w rid)).mgr.replies =
        ls'.mgr.replies ++ [{ rid := rid, value := .failure msg }] ∧
      (stepEvent ls' (.next w rid)).status = .failed msg) := by
  have hstep : stepEvent ls (.backingChange id (.error msg)) =
      { status := .failed msg,
        mgr := { ls.mgr with
          replies := ls.mgr.replies ++ failReplies ls.mgr.waiting msg,
          waiting := [] } } := by
    rw [stepEvent.eq_def, hrun]
  refine ⟨by rw [hstep], by rw [hstep], ?_, ?_, ?_⟩
  · intro p hp r hr
    rw [hstep]
    exact List.mem_append.mpr (Or.inr
      (List.mem_map.mpr ⟨r, mem_allRids hp hr, rfl⟩))
  · intro evs
    exact foldl_stepEvent_failed evs _ (by rw [hstep])
  · intro ls' h' w rid
    exact ⟨by rw [stepEvent.eq_def, h'], stepEvent_failed h' _⟩

theorem C6_backing_failure_witness :
    (stepEvent sampleLoop (.backingChange mid0 (.error "some error"))).status =
      .failed "some error" ∧
    (stepEvent (stepEvent sampleLoop (.backingChange mid0 (.error "some error")))
        (.next 0 3)).mgr.replies =
      (stepEvent sampleLoop (.backingChange mid0 (.error "some error"))).mgr.replies ++
        [{ rid := 3, value := .failure "some error" }] := by
  have h := @C6_backing_failure sampleLoop mid0 "some error" (by decide)
  exact ⟨h.1, (h.2.2.2.2 _ h.1 0 3).1⟩

end Multiwatcher

namespace BridgePolicy

/-- C9 counterexample: the 16 character device name en12345678901234
starts with en and is longer than 13, so the en is stripped and the b-
marker added, giving a 16 character bridge name, which exceeds 15. -/
theorem C9_counterexample :
    ¬ (BridgeNameForDevice "en12345678901234".toList).length ≤ 15 := by decide

/-- C9 amended: BridgeNameForDevice returns a name of length at most the
maximum of 15 and the length of the input: names shorter than 13 get the
br- marker, names of length 13 the b- marker, longer names starting with
en have the en stripped (length unchanged, hence possibly above 15), and
all other long names become b-, a 6 digit CRC-32 fragment, a dash, and
the last 6 characters (length exactly 15). -/
theorem C9_bridge_name_length (device : List Char) :
    (BridgeNameForDevice device).length ≤ max 15 device.length := by
  unfold BridgeNameForDevice
  have hlen : (dashDots device).length = device.length := List.length_map _ _
  by_cases h1 : (dashDots device).length < 13
  · rw [if_pos h1]
    simp only [List.length_cons]
    omega
  · rw [if_neg h1]
    by_cases h2 : (dashDots device).length = 13
    · rw [if_pos h2]
      simp only [List.length_cons]
      omega
    · rw [if_neg h2]
      by_cases h3 : (dashDots device).take 2 = ['e', 'n']
      · rw [if_pos h3]
        simp only [List.length_cons, List.length_drop]
        omega
      · rw [if_neg h3]
        have h6 : (hex6 (crc32 (dashDots device) &&& 0xffffff)).length = 6 := by
          unfold hex6
          rw [List.length_map, List.length_range]
        simp only [List.length_cons, List.length_append, List.length_drop, h6]
        omega

end BridgePolicy

namespace StorageCommon

/-- C10: when planBlockInfo carries a nonempty HardwareId and some element
of blockDevices carries that HardwareId, MatchingBlockDevice returns the
first such element together with true, whatever the volume info,
attachment info and the other plan fields hold. -/
theorem C10_plan_hardware_id_first {blockDevices : List BlockDeviceInfo}
    {volumeInfo : VolumeInfo} {attachmentInfo : VolumeAttachmentInfo}
    {planBlockInfo : BlockDeviceInfo} {dev : BlockDeviceInfo}
    (hkey : planBlockInfo.HardwareId ≠ "")
    (hfind : blockDevices.find?
        (fun d => decide (planBlockInfo.HardwareId = d.HardwareId)) = some dev) :
    MatchingBlockDevice blockDevices volumeInfo attachmentInfo planBlockInfo =
      (some dev, true) := by
  have h1 : tryCriterion planBlockInfo.HardwareId blockDevices
      (fun d => decide (planBlockInfo.HardwareId = d.HardwareId)) = some dev := by
    rw [tryCriterion, if_neg hkey]
    exact hfind
  rw [MatchingBlockDevice, h1]

theorem C10_plan_hardware_id_first_witness :
    MatchingBlockDevice [sampleDev] sampleVolume sampleAttachment samplePlan =
      (some sampleDev, true) :=
  @C10_plan_hardware_id_first [sampleDev] sampleVolume sampleAttachment
    samplePlan sampleDev (by decide) (by decide)

end StorageCommon

/-
Concrete checks that the modelled Store reproduces the expectations of
the store test cases recorded in the sources (TestStoreChangeMethods and
TestChangesSince).
-/

namespace Multiwatcher

example : (runOps [.update minfo0]).latestRevno = 1 := by decide

example :
    runOps [.update minfo0, .update minfo1, .incRef mid0, .remove mid0] =
    { latestRevno := 3,
      entries := [
        { info := minfo1, creationRevno := 2, revno := 2, removed := false, refCount := 0 },
        { info := minfo0, creationRevno := 1, revno := 3, removed := true, refCount := 1 }] } := by
  decide

example : runOps [.update minfo0, .remove mid0] =
    { latestRevno := 2, entries := [] } := by decide

example :
    (runOps [.update minfo0, .update minfo1, .update minfo2]).ChangesSince 1 =
    [{ removed := false, entity := minfo1 }, { removed := false, entity := minfo2 }] := by
  decide

example :
    (runOps [.update minfo0, .update minfo1, .update minfo2,
      .incRef mid0, .remove mid0]).ChangesSince 0 =
    [{ removed := false, entity := minfo1 }, { removed := false, entity := minfo2 }] := by
  decide

example :
    (runOps [.update minfo0, .update minfo1, .update minfo2,
      .incRef mid0, .remove mid0]).ChangesSince 3 =
    [{ removed := true, entity := minfo0 }] := by
  decide

example :
    (runOps [.update minfo0, .update minfo1, .update minfo2]).ChangesSince 99 = [] := by
  decide

-- mark removed on already marked entry: the second Remove is a no-op
example :
    runOps [.update minfo0, .update minfo1, .incRef mid0, .remove mid0,
      .update { entityId := mid1, payload := "i-1" }, .remove mid0] =
    { latestRevno := 4,
      entries := [
        { info := minfo0, creationRevno := 1, revno := 3, removed := true, refCount := 1 },
        { info := { entityId := mid1, payload := "i-1" }, creationRevno := 2, revno := 4,
          removed := false, refCount := 0 }] } := by
  decide

-- decref of a non-removed entity leaves the entry at refCount 0
example :
    runOps [.update minfo0, .incRef mid0, .decRef mid0] =
    { latestRevno := 1,
      entries := [
        { info := minfo0, creationRevno := 1, revno := 1,
          removed := false, refCount := 0 }] } := by
  decide

-- decref of a removed entity reaching refCount 0 deletes it
example :
    runOps [.update minfo0, .incRef mid0, .remove mid0, .decRef mid0] =
    { latestRevno := 2, entries := [] } := by
  decide

-- Watcher stop: no decref when the entry was created after the Watcher
-- position (TestHandleStopNoDecRefIfMoreRecentlyCreated)
example :
    (runOps [.update minfo0, .incRef mid0]).leave 0 =
    { latestRevno := 1,
      entries := [
        { info := minfo0, creationRevno := 1, revno := 1,
          removed := false, refCount := 1 }] } := by
  decide

-- Watcher stop: decref when the entry was seen and is not removed
-- (TestHandleStopDecRefIfAlreadySeenAndNotRemoved)
example :
    (runOps [.update minfo0, .incRef mid0]).leave 1 =
    { latestRevno := 1,
      entries := [
        { info := minfo0, creationRevno := 1, revno := 1,
          removed := false, refCount := 0 }] } := by
  decide

-- respond services the newest parked request of the sample manager,
-- leaves the older one parked, advances the Watcher position, and
-- increments the refCount of the newly observed entry
example :
    sampleMgr.respond =
    { store :=
        { latestRevno := 1,
          entries := [
            { info := minfo0, creationRevno := 1, revno := 1,
              removed := false, refCount := 1 }] },
      wrevnos := [(0, 1)],
      waiting := [(0, [1])],
      replies := [
        { rid := 2,
          value := .data true [{ removed := false, entity := minfo0 }] }] } := by
  decide

end Multiwatcher
